import Mathlib

/-!
# Verification of the Ptree Loader (`src/PtreeLoader/PtreeLoader.h`)

A shallow embedding of the `ptree_loader::PtreeLoader` class: a utility that
loads a Boost.PropertyTree from a file and recursively resolves the reserved
`IncludeFile` key as an include directive.

External capabilities (Boost.PropertyTree itself, the format parsers,
`std::filesystem`) are not part of the repository; they are modelled from the
spec where the loader relies on them:

* a property tree is data plus an ordered list of key/child pairs;
* `ptree::add_child` appends a new child, never replacing an existing one;
* the format parser is abstracted as part of the file system: each path either
  does not exist, exists but fails to parse (the parser throws a message),
  or parses to a tree;
* `std::filesystem` paths are POSIX-style: an absoluteness flag plus a list of
  segments; `weakly_canonical` resolves `.` and `..` lexically (the spec:
  "Normalize/canonicalize the result (resolve `.`/`..` segments) without
  requiring the path to exist yet").

Everything else (`Load`, the depth guard, the merge loop, the diagnostics) is
translated directly from the source.
-/

namespace PtreeLoaderModel

/-- A filesystem path, modelled from the spec as POSIX-style:
absolute or relative, with a list of name segments. -/
structure FsPath where
  absolute : Bool
  segs : List String
deriving DecidableEq, Repr

/-- `fs::path::is_absolute`. -/
def FsPath.isAbsolute (p : FsPath) : Bool := p.absolute

/-- `fs::path::operator/` (appending): if the right operand is absolute it
replaces the left one, otherwise the segments are concatenated. -/
def FsPath.concat (parent p : FsPath) : FsPath :=
  if p.absolute then p else ⟨parent.absolute, parent.segs ++ p.segs⟩

/-- `fs::path::parent_path`: drop the last segment. -/
def FsPath.parentDir (p : FsPath) : FsPath :=
  ⟨p.absolute, p.segs.dropLast⟩

/-- One step of lexical canonicalization over the segment list.
`acc` is the already-normalized prefix. -/
def canonSegs (abs : Bool) : List String → List String → List String
  | acc, [] => acc
  | acc, s :: rest =>
    if s = "." ∨ s = "" then canonSegs abs acc rest
    else if s = ".." then
      match acc.getLast? with
      | some t =>
        if t = ".." then canonSegs abs (acc ++ [".."]) rest
        else canonSegs abs acc.dropLast rest
      | none => canonSegs abs (if abs then [] else [".."]) rest
    else canonSegs abs (acc ++ [s]) rest

/-- `fs::weakly_canonical`, modelled from the spec: resolve `.` and `..`
segments lexically, without requiring the path to exist. -/
def FsPath.weaklyCanonical (p : FsPath) : FsPath :=
  ⟨p.absolute, canonSegs p.absolute [] p.segs⟩

/-- `fs::path::string()` for a POSIX-style path. -/
def FsPath.render (p : FsPath) : String :=
  (if p.absolute then "/" else "") ++ String.intercalate "/" p.segs

/-- Split a character list at every `/`. -/
def splitSlash (cs : List Char) : List String :=
  (cs.foldr
    (fun c acc => if c = '/' then [] :: acc else (c :: acc.headD []) :: acc.tail)
    ([[]] : List (List Char))).map (fun g => String.mk g)

/-- Construction of an `fs::path` from a string
(the include value `kv.second.data()` is a string). -/
def parsePath (s : String) : FsPath :=
  ⟨s.toList.headD ' ' = '/', (splitSlash s.toList).filter (fun t => t ≠ "")⟩

/-- A Boost property tree (`bpt::ptree`): node data plus an ordered list of
key/child pairs; keys may repeat. -/
inductive Ptree where
  | node (data : String) (children : List (String × Ptree)) : Ptree

/-- The node's own data (`ptree::data()`). -/
def Ptree.data : Ptree → String
  | .node d _ => d

/-- The node's immediate children in order. -/
def Ptree.children : Ptree → List (String × Ptree)
  | .node _ cs => cs

/-- `ptree::add_child`, modelled from the spec: "append it as a new child of
the destination tree under the same key (duplicates allowed, nothing is
overwritten or replaced)". -/
def addChild (t : Ptree) (k : String) (c : Ptree) : Ptree :=
  .node t.data (t.children ++ [(k, c)])

/-- The file system together with the format-specific parser (`Reader`), both
external to the repository, modelled from the spec: a path either does not
exist (`none`), exists but the parser throws a message (`some (.error e)`),
or parses to a tree (`some (.ok t)`). Lookup is at the effective
(canonicalized) path. -/
def FileSystem := FsPath → Option (Except String Ptree)

/-- One line of the `diagnostic` stream.  The loader emits exactly four kinds
of lines; `DiagLine.render` gives the exact text the source streams out. -/
inductive DiagLine where
  | loopDetected : DiagLine
  | pathNotFound (path : String) : DiagLine
  | loading (path : String) : DiagLine
  | error (msg : String) : DiagLine
deriving DecidableEq, Repr

/-- The exact text of a diagnostic line, as streamed by the source. -/
def DiagLine.render : DiagLine → String
  | .loopDetected => "Recursive include loop depected. Exiting..."
  | .pathNotFound p => "Path not found: " ++ p
  | .loading p => "Loading: " ++ p
  | .error e => "Error: " ++ e

/-- The loader's mutable state: the destination tree `root`, the
`diagnostic` stream (as a list of lines) and the recursion `depth` counter. -/
structure LoaderState where
  root : Ptree
  diagnostic : List DiagLine
  depth : Nat

/-- `static constexpr const char* includeKey{ "IncludeFile" }`. -/
def includeKey : String := "IncludeFile"

/-- `static constexpr const int depthLimit{ 20 }`. -/
def depthLimit : Nat := 20

/-- The effective path computed by the private `Load`:
`fs::weakly_canonical( fsPath.is_absolute() ? fsPath : fsParentPath / fsPath )`. -/
def resolveEffective (fsParentPath fsPath : FsPath) : FsPath :=
  FsPath.weaklyCanonical (if fsPath.isAbsolute then fsPath else fsParentPath.concat fsPath)

/-- The merge loop of the private `Load`, abstracted over the recursive step:
for each key/child pair of the parsed subtree, `add_child` it to the root, and
when the key equals `includeKey` recurse on the child's data as a path, with
the effective path's parent directory as parent path. -/
def loadChildren (step : FsPath → FsPath → LoaderState → LoaderState)
    (effDir : FsPath) : List (String × Ptree) → LoaderState → LoaderState
  | [], st => st
  | (k, v) :: rest, st =>
    let st1 : LoaderState := { st with root := addChild st.root k v }
    let st2 : LoaderState :=
      if k = includeKey then step (parsePath v.data) effDir st1 else st1
    loadChildren step effDir rest st2

/-- The private recursive `Load(fsPath, fsParentPath)`.  `fuel` is an upper
bound on the remaining recursion nesting, needed only so Lean accepts the
definition; `loadStep_fuel_irrelevant` below shows any fuel of at least
`depthLimit + 1 - depth` gives the same result, so `Load` below, which starts
with fuel `depthLimit + 1` at depth `0`, computes the source's recursion
exactly.

Translated line by line: increment the depth and bail out with the loop
diagnostic if over the limit; compute the effective path; bail out with
`Path not found` if the file does not exist; emit `Loading`; parse (a parser
exception is caught into an `Error` diagnostic); merge the children. -/
def loadStep (fs : FileSystem) : Nat → FsPath → FsPath → LoaderState → LoaderState
  | 0, _, _, st => st
  | fuel + 1, fsPath, fsParentPath, st =>
    let st := { st with depth := st.depth + 1 }
    if st.depth > depthLimit then
      { st with diagnostic := st.diagnostic ++ [.loopDetected] }
    else
      let eff := resolveEffective fsParentPath fsPath
      match fs eff with
      | none =>
        { st with diagnostic := st.diagnostic ++ [.pathNotFound eff.render] }
      | some r =>
        let st := { st with diagnostic := st.diagnostic ++ [.loading eff.render] }
        match r with
        | .error e => { st with diagnostic := st.diagnostic ++ [.error e] }
        | .ok subtree =>
          loadChildren (fun p q s => loadStep fs fuel p q s) eff.parentDir subtree.children st

/-- The parent-path argument of the initial private `Load` call:
`fsPath.is_relative() ? fs::current_path() : ""`. -/
def initialParent (cwd fsPath : FsPath) : FsPath :=
  if fsPath.isAbsolute then ⟨false, []⟩ else cwd

/-- The public `Load(fsPath)`: set `depth = 0` and call the private `Load`
with parent path the current working directory for a relative path, the empty
path for an absolute one.  `cwd` models `fs::current_path()`.  Note that the
diagnostic stream is NOT cleared. -/
def Load (fs : FileSystem) (cwd : FsPath) (st : LoaderState) (fsPath : FsPath) : LoaderState :=
  loadStep fs (depthLimit + 1) fsPath (initialParent cwd fsPath) { st with depth := 0 }

/-- `std::string delim( 80, '=' )`. -/
def delim : String := String.mk (List.replicate 80 '=')

/-- `DumpDiag`: the diagnostic lines framed by delimiter lines. -/
def DumpDiag (st : LoaderState) : String :=
  delim ++ "\n" ++ String.join (st.diagnostic.map (fun l => l.render ++ "\n")) ++ delim ++ "\n"

def Extends (st st' : LoaderState) : Prop :=
  st'.root.data = st.root.data ∧
  (∃ tl, st'.root.children = st.root.children ++ tl) ∧
  (∃ dl, st'.diagnostic = st.diagnostic ++ dl)

def isLoadingLine : DiagLine → Bool
  | .loading _ => true
  | _ => false

def loadingCount (ls : List DiagLine) : Nat := (ls.filter isLoadingLine).length

/-- The combined invariant: a step only appends to the diagnostic, the depth
grows by at least the number of files it loads, and it loads at most
`depthLimit - depth` files. -/
def LoadBound (st st' : LoaderState) : Prop :=
  ∃ dl, st'.diagnostic = st.diagnostic ++ dl ∧
    st.depth + loadingCount dl ≤ st'.depth ∧
    loadingCount dl ≤ depthLimit - st.depth

/-!
## Concrete fixtures

Small concrete file systems used to exercise the loader on the scenarios the
spec describes.
-/

/-- A leaf node: scalar data, no children. -/
def leaf (s : String) : Ptree := .node s []

/-- A fresh loader state: empty destination tree, empty diagnostic, depth 0
(the `depth` member is uninitialized in the source until the first `Load`;
its value is irrelevant because `Load` overwrites it). -/
def st0 : LoaderState := ⟨.node "" [], [], 0⟩

/-- The spec's concrete scenario: `/dir/a.json` = `{"x":1,"IncludeFile":"b.json"}`
and `/dir/b.json` = `{"y":2}`, in the same directory. -/
def pairFS : FileSystem := fun p =>
  if p = ⟨true, ["dir", "a.json"]⟩ then
    some (.ok (.node "" [("x", leaf "1"), ("IncludeFile", leaf "b.json")]))
  else if p = ⟨true, ["dir", "b.json"]⟩ then
    some (.ok (.node "" [("y", leaf "2")]))
  else none

/-- A file `/a` whose include key occurs only NESTED (under `outer`), one
level below the file's immediate children, plus an existing target `/b`. -/
def nestedFS : FileSystem := fun p =>
  if p = ⟨true, ["a"]⟩ then
    some (.ok (.node "" [("outer", .node "" [("IncludeFile", leaf "/b")])]))
  else if p = ⟨true, ["b"]⟩ then
    some (.ok (.node "" [("y", leaf "2")]))
  else none

/-- Two unrelated single files `/a` and `/b`, for loading one after the
other on the same loader instance. -/
def twoFS : FileSystem := fun p =>
  if p = ⟨true, ["a"]⟩ then some (.ok (.node "" [("x", leaf "1")]))
  else if p = ⟨true, ["b"]⟩ then some (.ok (.node "" [("y", leaf "2")]))
  else none

/-- The i-th file of an include chain. -/
def chainPath (i : Nat) : FsPath := ⟨true, ["c" ++ Nat.repr i]⟩

/-- A chain of `n` files `/c0, /c1, ...`, each including the next by absolute
path; the last one includes nothing. -/
def chainFS (n : Nat) : FileSystem := fun p =>
  match (List.range n).find? (fun i => p == chainPath i) with
  | some i =>
    some (.ok (.node ""
      (if i + 1 < n then [("IncludeFile", leaf ("/c" ++ Nat.repr (i + 1)))] else [])))
  | none => none

/-- A single file `/s` that includes itself: a one-node include cycle. -/
def cycFS : FileSystem := fun p =>
  if p = ⟨true, ["s"]⟩ then some (.ok (.node "" [("IncludeFile", leaf "/s")])) else none

/-- A root file `/r` with 25 sibling includes `/w0 ... /w24`, each target a
small include-free file: a wide, shallow include graph (nesting depth 2). -/
def wideFS : FileSystem := fun p =>
  if p = ⟨true, ["r"]⟩ then
    some (.ok (.node "" ((List.range 25).map
      (fun i => ("IncludeFile", leaf ("/w" ++ Nat.repr i))))))
  else
    match (List.range 25).find? (fun i => p == (⟨true, ["w" ++ Nat.repr i]⟩ : FsPath)) with
    | some i => some (.ok (.node "" [("k", leaf (Nat.repr i))]))
    | none => none

/-- A file system exercising path resolution: with current directory `/w`,
the relative root `d/a` lives at `/w/d/a`; it includes the relative `b2`
(a sibling in `/w/d`, not in the current directory) and the absolute
`/abs/c`; `/w/d/b2` in turn includes `../up.j`, which climbs to `/w/up.j`. -/
def relFS : FileSystem := fun p =>
  if p = ⟨true, ["w", "d", "a"]⟩ then
    some (.ok (.node "" [("k1", leaf "v1"), ("IncludeFile", leaf "b2"),
      ("IncludeFile", leaf "/abs/c")]))
  else if p = ⟨true, ["w", "d", "b2"]⟩ then
    some (.ok (.node "" [("IncludeFile", leaf "../up.j")]))
  else if p = ⟨true, ["w", "up.j"]⟩ then
    some (.ok (.node "" [("u", leaf "1")]))
  else if p = ⟨true, ["abs", "c"]⟩ then
    some (.ok (.node "" [("c", leaf "3")]))
  else none

/-- A file `/good` that parses, next to a file `/bad` that exists but is
rejected by the parser with message `boom`. -/
def errFS : FileSystem := fun p =>
  if p = ⟨true, ["good"]⟩ then some (.ok (.node "" [("x", leaf "1")]))
  else if p = ⟨true, ["bad"]⟩ then some (.error "boom")
  else none

/-- A single file `/dup` whose top level repeats the key `k` twice. -/
def dupFS : FileSystem := fun p =>
  if p = ⟨true, ["dup"]⟩ then
    some (.ok (.node "" [("k", leaf "1"), ("k", leaf "2")]))
  else none

/-!
## Branch equations for `loadStep`

One rewriting lemma per branch of the private `Load`, mirroring the source's
early returns: the loop guard, the missing file, the parser exception, and the
successful parse followed by the merge loop.
-/

theorem loadStep_zero (fs : FileSystem) (p q : FsPath) (st : LoaderState) :
    loadStep fs 0 p q st = st := rfl

theorem loadStep_loop (fs : FileSystem) (f : Nat) (p q : FsPath) (st : LoaderState)
    (h : depthLimit ≤ st.depth) :
    loadStep fs (f + 1) p q st =
      { st with depth := st.depth + 1, diagnostic := st.diagnostic ++ [.loopDetected] } := by
  simp only [loadStep]
  rw [if_pos (by omega)]

theorem loadStep_notFound (fs : FileSystem) (f : Nat) (p q : FsPath) (st : LoaderState)
    (h : st.depth < depthLimit) (hfs : fs (resolveEffective q p) = none) :
    loadStep fs (f + 1) p q st =
      { st with depth := st.depth + 1,
                diagnostic := st.diagnostic ++ [.pathNotFound (resolveEffective q p).render] } := by
  simp only [loadStep]
  rw [if_neg (by omega), hfs]

theorem loadStep_parseError (fs : FileSystem) (f : Nat) (p q : FsPath) (st : LoaderState)
    (e : String) (h : st.depth < depthLimit) (hfs : fs (resolveEffective q p) = some (.error e)) :
    loadStep fs (f + 1) p q st =
      { st with depth := st.depth + 1,
                diagnostic := st.diagnostic ++
                  [.loading (resolveEffective q p).render, .error e] } := by
  simp only [loadStep]
  rw [if_neg (by omega), hfs]
  simp

theorem loadStep_parseOk (fs : FileSystem) (f : Nat) (p q : FsPath) (st : LoaderState)
    (t : Ptree) (h : st.depth < depthLimit) (hfs : fs (resolveEffective q p) = some (.ok t)) :
    loadStep fs (f + 1) p q st =
      loadChildren (fun a b s => loadStep fs f a b s) (resolveEffective q p).parentDir t.children
        { st with depth := st.depth + 1,
                  diagnostic := st.diagnostic ++ [.loading (resolveEffective q p).render] } := by
  simp only [loadStep]
  rw [if_neg (by omega), hfs]

/-!
## Append-only extension

`Extends st st'` says `st'` is reachable from `st` by only appending: the
destination tree keeps its data and its existing children as a prefix, and the
diagnostic stream keeps its existing lines as a prefix.
-/

theorem Extends.rfl (st : LoaderState) : Extends st st :=
  ⟨by rfl, ⟨[], by simp⟩, ⟨[], by simp⟩⟩

theorem Extends.trans {s1 s2 s3 : LoaderState} (h12 : Extends s1 s2) (h23 : Extends s2 s3) :
    Extends s1 s3 := by
  obtain ⟨hd12, ⟨t12, ht12⟩, ⟨d12, hdg12⟩⟩ := h12
  obtain ⟨hd23, ⟨t23, ht23⟩, ⟨d23, hdg23⟩⟩ := h23
  exact ⟨hd23.trans hd12, ⟨t12 ++ t23, by simp [ht23, ht12]⟩,
    ⟨d12 ++ d23, by simp [hdg23, hdg12]⟩⟩

theorem extends_depth (st : LoaderState) (d : Nat) : Extends st { st with depth := d } :=
  ⟨by rfl, ⟨[], by simp⟩, ⟨[], by simp⟩⟩

theorem extends_diag (st : LoaderState) (d : Nat) (dl : List DiagLine) :
    Extends st { st with depth := d, diagnostic := st.diagnostic ++ dl } :=
  ⟨by rfl, ⟨[], by simp⟩, ⟨dl, by rfl⟩⟩

theorem extends_addChild (st : LoaderState) (k : String) (v : Ptree) :
    Extends st { st with root := addChild st.root k v } :=
  ⟨by rfl, ⟨[(k, v)], by rfl⟩, ⟨[], by simp⟩⟩

theorem loadChildren_extends (step : FsPath → FsPath → LoaderState → LoaderState)
    (hstep : ∀ p q s, Extends s (step p q s)) (d : FsPath) :
    ∀ (cs : List (String × Ptree)) (st : LoaderState), Extends st (loadChildren step d cs st)
  | [], st => Extends.rfl st
  | (k, v) :: rest, st => by
    simp only [loadChildren]
    refine Extends.trans (Extends.trans (extends_addChild st k v) ?_)
      (loadChildren_extends step hstep d rest _)
    by_cases hk : k = includeKey
    · simpa [hk] using hstep (parsePath v.data) d _
    · simp [hk]
      exact Extends.rfl _

theorem loadStep_extends (fs : FileSystem) :
    ∀ (f : Nat) (p q : FsPath) (st : LoaderState), Extends st (loadStep fs f p q st)
  | 0, p, q, st => Extends.rfl st
  | f + 1, p, q, st => by
    by_cases h : depthLimit ≤ st.depth
    · rw [loadStep_loop fs f p q st h]
      exact extends_diag st _ _
    · have h' : st.depth < depthLimit := by omega
      cases hfs : fs (resolveEffective q p) with
      | none =>
        rw [loadStep_notFound fs f p q st h' hfs]
        exact extends_diag st _ _
      | some r =>
        cases r with
        | error e =>
          rw [loadStep_parseError fs f p q st e h' hfs]
          exact extends_diag st _ _
        | ok t =>
          rw [loadStep_parseOk fs f p q st t h' hfs]
          exact Extends.trans (extends_diag st _ _)
            (loadChildren_extends _ (fun a b s => loadStep_extends fs f a b s) _ _ _)

/-!
## Depth monotonicity and fuel irrelevance

The depth counter never decreases, and once the fuel is at least
`depthLimit + 1 - depth` (and positive), its exact value does not matter:
the recursion aborts through the loop guard before the fuel can run out.
In particular `Load`'s choice of fuel `depthLimit + 1` at depth `0` computes
the source's (guard-bounded) recursion exactly.
-/

theorem loadChildren_depth_mono (step : FsPath → FsPath → LoaderState → LoaderState)
    (hstep : ∀ p q s, s.depth ≤ (step p q s).depth) (d : FsPath) :
    ∀ (cs : List (String × Ptree)) (st : LoaderState),
      st.depth ≤ (loadChildren step d cs st).depth
  | [], st => Nat.le_refl _
  | (k, v) :: rest, st => by
    simp only [loadChildren]
    refine Nat.le_trans ?_ (loadChildren_depth_mono step hstep d rest _)
    by_cases hk : k = includeKey
    · simpa [hk] using hstep (parsePath v.data) d { st with root := addChild st.root k v }
    · simp [hk]

theorem loadStep_depth_mono (fs : FileSystem) :
    ∀ (f : Nat) (p q : FsPath) (st : LoaderState), st.depth ≤ (loadStep fs f p q st).depth
  | 0, p, q, st => Nat.le_refl _
  | f + 1, p, q, st => by
    by_cases h : depthLimit ≤ st.depth
    · rw [loadStep_loop fs f p q st h]; exact Nat.le_succ st.depth
    · have h' : st.depth < depthLimit := by omega
      cases hfs : fs (resolveEffective q p) with
      | none => rw [loadStep_notFound fs f p q st h' hfs]; exact Nat.le_succ st.depth
      | some r =>
        cases r with
        | error e => rw [loadStep_parseError fs f p q st e h' hfs]; exact Nat.le_succ st.depth
        | ok t =>
          rw [loadStep_parseOk fs f p q st t h' hfs]
          exact Nat.le_trans (Nat.le_succ st.depth)
            (loadChildren_depth_mono (fun a b s => loadStep fs f a b s)
              (fun a b s => loadStep_depth_mono fs f a b s) (resolveEffective q p).parentDir
              t.children
              { st with depth := st.depth + 1,
                        diagnostic := st.diagnostic ++
                          [.loading (resolveEffective q p).render] })

theorem loadChildren_congr (step1 step2 : FsPath → FsPath → LoaderState → LoaderState)
    (D : Nat) (hagree : ∀ p q s, D ≤ s.depth → step1 p q s = step2 p q s)
    (hmono : ∀ p q s, s.depth ≤ (step1 p q s).depth) (d : FsPath) :
    ∀ (cs : List (String × Ptree)) (st : LoaderState), D ≤ st.depth →
      loadChildren step1 d cs st = loadChildren step2 d cs st
  | [], st, _ => rfl
  | (k, v) :: rest, st, hD => by
    simp only [loadChildren]
    have hD1 : D ≤ ({ st with root := addChild st.root k v } : LoaderState).depth := hD
    by_cases hk : k = includeKey
    · rw [if_pos hk, if_pos hk, hagree _ _ _ hD1]
      refine loadChildren_congr step1 step2 D hagree hmono d rest _ ?_
      rw [← hagree _ _ _ hD1]
      exact Nat.le_trans hD1 (hmono _ _ _)
    · rw [if_neg hk, if_neg hk]
      exact loadChildren_congr step1 step2 D hagree hmono d rest _ hD1

theorem loadStep_fuel_irrelevant (fs : FileSystem) :
    ∀ (f1 f2 : Nat) (p q : FsPath) (st : LoaderState), 1 ≤ f1 → 1 ≤ f2 →
      depthLimit + 1 ≤ f1 + st.depth → depthLimit + 1 ≤ f2 + st.depth →
      loadStep fs f1 p q st = loadStep fs f2 p q st := by
  intro f1
  induction f1 with
  | zero => omega
  | succ n1 ih =>
    intro f2 p q st _ hf2 hb1 hb2
    match f2, hf2 with
    | n2 + 1, _ =>
      by_cases h : depthLimit ≤ st.depth
      · rw [loadStep_loop fs n1 p q st h, loadStep_loop fs n2 p q st h]
      · have h' : st.depth < depthLimit := by omega
        cases hfs : fs (resolveEffective q p) with
        | none => rw [loadStep_notFound fs n1 p q st h' hfs,
            loadStep_notFound fs n2 p q st h' hfs]
        | some r =>
          cases r with
          | error e => rw [loadStep_parseError fs n1 p q st e h' hfs,
              loadStep_parseError fs n2 p q st e h' hfs]
          | ok t =>
            rw [loadStep_parseOk fs n1 p q st t h' hfs,
              loadStep_parseOk fs n2 p q st t h' hfs]
            exact loadChildren_congr (fun a b s => loadStep fs n1 a b s)
              (fun a b s => loadStep fs n2 a b s) (st.depth + 1)
              (fun a b s hs => ih n2 a b s (by omega) (by omega) (by omega) (by omega))
              (fun a b s => loadStep_depth_mono fs n1 a b s)
              (resolveEffective q p).parentDir t.children
              { st with depth := st.depth + 1,
                        diagnostic := st.diagnostic ++
                          [.loading (resolveEffective q p).render] }
              (Nat.le_refl _)

/-!
## Counting loaded files

`loadingCount` counts the `Loading: <path>` lines of a stretch of diagnostic
output, i.e. the number of files opened for parsing.  Because the depth
counter is incremented on every step and never decremented, each loaded file
raises the counter by at least one, and a file is only loaded while the
counter is at most `depthLimit`; hence at most `depthLimit` files are loaded
during one session.
-/

theorem loadingCount_append (l1 l2 : List DiagLine) :
    loadingCount (l1 ++ l2) = loadingCount l1 + loadingCount l2 := by
  simp [loadingCount, List.filter_append]

theorem loadChildren_loadBound (step : FsPath → FsPath → LoaderState → LoaderState)
    (hstep : ∀ p q s, LoadBound s (step p q s)) (d : FsPath) :
    ∀ (cs : List (String × Ptree)) (st : LoaderState),
      LoadBound st (loadChildren step d cs st)
  | [], st =>
    ⟨[], by simp [loadChildren], by simp [loadChildren, loadingCount],
      by simp [loadingCount]⟩
  | (k, v) :: rest, st => by
    simp only [loadChildren]
    have key : ∀ st1 : LoaderState, st1.diagnostic = st.diagnostic → st1.depth = st.depth →
        LoadBound st (loadChildren step d rest (if k = includeKey
          then step (parsePath v.data) d st1 else st1)) := by
      intro st1 hdiag hdep
      by_cases hk : k = includeKey
      · rw [if_pos hk]
        obtain ⟨d1, hd1, hdep1, hcnt1⟩ := hstep (parsePath v.data) d st1
        obtain ⟨d2, hd2, hdep2, hcnt2⟩ :=
          loadChildren_loadBound step hstep d rest (step (parsePath v.data) d st1)
        refine ⟨d1 ++ d2, ?_, ?_, ?_⟩
        · rw [hd2, hd1, hdiag, List.append_assoc]
        · rw [loadingCount_append]; omega
        · rw [loadingCount_append]; omega
      · rw [if_neg hk]
        obtain ⟨d2, hd2, hdep2, hcnt2⟩ := loadChildren_loadBound step hstep d rest st1
        exact ⟨d2, by rw [hd2, hdiag], by omega, by omega⟩
    exact key { st with root := addChild st.root k v } rfl rfl

theorem loadStep_loadBound (fs : FileSystem) :
    ∀ (f : Nat) (p q : FsPath) (st : LoaderState), LoadBound st (loadStep fs f p q st)
  | 0, p, q, st =>
    ⟨[], by simp [loadStep_zero], by simp [loadStep_zero, loadingCount],
      by simp [loadingCount]⟩
  | f + 1, p, q, st => by
    by_cases h : depthLimit ≤ st.depth
    · rw [loadStep_loop fs f p q st h]
      exact ⟨[.loopDetected], rfl, by simp [loadingCount, isLoadingLine],
        by simp [loadingCount, isLoadingLine]⟩
    · have h' : st.depth < depthLimit := by omega
      cases hfs : fs (resolveEffective q p) with
      | none =>
        rw [loadStep_notFound fs f p q st h' hfs]
        exact ⟨[.pathNotFound (resolveEffective q p).render], rfl,
          by simp [loadingCount, isLoadingLine], by simp [loadingCount, isLoadingLine]⟩
      | some r =>
        cases r with
        | error e =>
          rw [loadStep_parseError fs f p q st e h' hfs]
          refine ⟨[.loading (resolveEffective q p).render, .error e], rfl, ?_, ?_⟩
          · simp [loadingCount, isLoadingLine, List.filter]
          · simp only [loadingCount, isLoadingLine, List.filter, List.length]
            omega
        | ok t =>
          rw [loadStep_parseOk fs f p q st t h' hfs]
          obtain ⟨d2, hd2, hdep2, hcnt2⟩ :=
            loadChildren_loadBound (fun a b s => loadStep fs f a b s)
              (fun a b s => loadStep_loadBound fs f a b s) (resolveEffective q p).parentDir
              t.children
              { st with depth := st.depth + 1,
                        diagnostic := st.diagnostic ++
                          [.loading (resolveEffective q p).render] }
          refine ⟨[.loading (resolveEffective q p).render] ++ d2, ?_, ?_, ?_⟩
          · rw [hd2]; simp
          · rw [loadingCount_append]
            have : loadingCount [DiagLine.loading (resolveEffective q p).render] = 1 := by
              simp [loadingCount, isLoadingLine, List.filter]
            simp only [this] at hdep2 ⊢
            omega
          · rw [loadingCount_append]
            have : loadingCount [DiagLine.loading (resolveEffective q p).render] = 1 := by
              simp [loadingCount, isLoadingLine, List.filter]
            simp only [this] at hcnt2 ⊢
            omega

/-!
## The merge of an include-free file

When a parsed file's immediate children contain no `IncludeFile` key, the
merge loop appends exactly those children to the destination tree and does
nothing else — regardless of what appears deeper inside the children.
-/

theorem loadChildren_no_include (step : FsPath → FsPath → LoaderState → LoaderState)
    (d : FsPath) :
    ∀ (cs : List (String × Ptree)) (st : LoaderState),
      (∀ kv ∈ cs, kv.1 ≠ includeKey) →
      loadChildren step d cs st =
        ⟨.node st.root.data (st.root.children ++ cs), st.diagnostic, st.depth⟩
  | [], st, _ => by
    cases st with
    | mk root diag dep => cases root with
      | node rd rcs => simp [loadChildren, Ptree.data, Ptree.children]
  | (k, v) :: rest, st, h => by
    have hk : k ≠ includeKey := h (k, v) (by simp)
    simp only [loadChildren]
    rw [if_neg hk]
    rw [loadChildren_no_include step d rest _ (fun kv hkv => h kv (by simp [hkv]))]
    simp [addChild, Ptree.data, Ptree.children]

/-!
## Claim theorems
-/

/-- C1: For every path argument and every filesystem/parser outcome, the
public `Load(path)` operation returns normally (it is a total function of the
model, every parser failure being caught into the diagnostic), every failure
is recorded only as appended diagnostic lines, and the destination tree is
left in the partially-merged state reached so far (its previous data and
children are untouched, new children only appended). -/
theorem load_returns_normally (fs : FileSystem) (cwd : FsPath) (st : LoaderState)
    (p : FsPath) :
    (∃ newDiag, (Load fs cwd st p).diagnostic = st.diagnostic ++ newDiag) ∧
    (Load fs cwd st p).root.data = st.root.data ∧
    (∃ tl, (Load fs cwd st p).root.children = st.root.children ++ tl) := by
  obtain ⟨hd, htl, hdl⟩ :=
    loadStep_extends fs (depthLimit + 1) p (initialParent cwd p) { st with depth := 0 }
  exact ⟨hdl, hd, htl⟩

/-- C3 counterexample: on one loader instance, `Load("/a")` followed by
`Load("/b")` leaves BOTH sessions' lines in the diagnostic: the line
`Loading: /a` produced by the earlier call still appears after the later
call, so the diagnostic log is not cleared at entry. -/
theorem diagnostic_not_cleared :
    (Load twoFS ⟨true, []⟩ (Load twoFS ⟨true, []⟩ st0 (parsePath "/a"))
        (parsePath "/b")).diagnostic = [.loading "/a", .loading "/b"] ∧
    DiagLine.loading "/a" ∈ (Load twoFS ⟨true, []⟩ st0 (parsePath "/a")).diagnostic :=
  ⟨by decide, by decide⟩

/-- C3 amended: at entry to every top-level `Load(path)` call the
recursion-depth counter is reset to 0 (the result does not depend on the
depth value left by an earlier call), but the diagnostic log is NOT cleared:
it only ever grows, so lines from an earlier `Load` on the same instance
still appear after a later `Load`. -/
theorem load_resets_depth_not_diagnostic (fs : FileSystem) (cwd : FsPath)
    (st : LoaderState) (d : Nat) (p : FsPath) :
    Load fs cwd { st with depth := d } p = Load fs cwd st p ∧
    (∃ dl, (Load fs cwd st p).diagnostic = st.diagnostic ++ dl) := by
  refine ⟨rfl, ?_⟩
  obtain ⟨_, _, hdl⟩ :=
    loadStep_extends fs (depthLimit + 1) p (initialParent cwd p) { st with depth := 0 }
  exact hdl

/-- C6: during every load the destination tree is append-only — its data is
never changed and its existing children stay as an unchanged prefix — and a
parsed file's top-level key/value pairs (of an include-free file, duplicates
included) are appended verbatim as new children. -/
theorem destination_append_only (fs : FileSystem) (cwd : FsPath) (st : LoaderState)
    (p : FsPath) :
    (Load fs cwd st p).root.data = st.root.data ∧
    (∃ tl, (Load fs cwd st p).root.children = st.root.children ++ tl) ∧
    (∀ t, fs (resolveEffective (initialParent cwd p) p) = some (.ok t) →
      (∀ kv ∈ t.children, kv.1 ≠ includeKey) →
      (Load fs cwd st p).root.children = st.root.children ++ t.children) := by
  obtain ⟨hd, htl, _⟩ :=
    loadStep_extends fs (depthLimit + 1) p (initialParent cwd p) { st with depth := 0 }
  refine ⟨hd, htl, ?_⟩
  intro t hfs hnoinc
  unfold Load
  have h0 : (0 : Nat) < depthLimit := by decide
  rw [loadStep_parseOk fs depthLimit p (initialParent cwd p) _ t h0 hfs]
  rw [loadChildren_no_include _ _ t.children _ hnoinc]
  rfl

/-- C6 witness: loading `/dup`, whose top level repeats the key `k`, appends
both duplicate pairs to the destination tree. -/
theorem destination_append_only_witness :
    (Load dupFS ⟨true, []⟩ st0 (parsePath "/dup")).root.children =
      [] ++ [("k", leaf "1"), ("k", leaf "2")] :=
  (destination_append_only dupFS ⟨true, []⟩ st0 (parsePath "/dup")).2.2
    (.node "" [("k", leaf "1"), ("k", leaf "2")]) rfl (by decide)

/-- C7: the spec's concrete scenario: `/dir/a.json` = `{"x":1,"IncludeFile":"b.json"}`
and `/dir/b.json` = `{"y":2}`; after loading `a.json` (relative to current
directory `/dir`) the destination has children `x=1`, `IncludeFile="b.json"`,
`y=2` in that order — the include line is retained, not replaced by its
expansion — and the diagnostics list loading `a.json` then the resolved path
of `b.json`. -/
theorem include_line_retained_scenario :
    (Load pairFS ⟨true, ["dir"]⟩ st0 (parsePath "a.json")).root =
      .node "" [("x", leaf "1"), ("IncludeFile", leaf "b.json"), ("y", leaf "2")] ∧
    (Load pairFS ⟨true, ["dir"]⟩ st0 (parsePath "a.json")).diagnostic =
      [.loading "/dir/a.json", .loading "/dir/b.json"] :=
  ⟨rfl, by decide⟩

/-- C9: at any recursion depth below the limit, a missing file appends
exactly a path-not-found line carrying the resolved path, and a file the
parser rejects appends exactly the loading line and an error line carrying
the parser's message; in both cases the step returns with the destination
tree (and all previously accumulated diagnostics and merges) unchanged. -/
theorem failed_branch_diagnostic_only (fs : FileSystem) (f : Nat) (p q : FsPath)
    (st : LoaderState) (h : st.depth < depthLimit) :
    (fs (resolveEffective q p) = none →
      loadStep fs (f + 1) p q st =
        { st with depth := st.depth + 1,
                  diagnostic := st.diagnostic ++
                    [.pathNotFound (resolveEffective q p).render] }) ∧
    (∀ e, fs (resolveEffective q p) = some (.error e) →
      loadStep fs (f + 1) p q st =
        { st with depth := st.depth + 1,
                  diagnostic := st.diagnostic ++
                    [.loading (resolveEffective q p).render, .error e] }) :=
  ⟨loadStep_notFound fs f p q st h,
   fun e he => loadStep_parseError fs f p q st e h he⟩

/-- C9 witness: at depth 0, the missing file `/nope` yields exactly a
path-not-found line for `/nope`, and the unparsable file `/bad` yields its
loading line and the parser message `boom`; both leave the tree alone. -/
theorem failed_branch_diagnostic_only_witness :
    loadStep errFS 1 ⟨true, ["nope"]⟩ ⟨false, []⟩ st0 =
      { st0 with depth := 1, diagnostic := [.pathNotFound "/nope"] } ∧
    loadStep errFS 1 ⟨true, ["bad"]⟩ ⟨false, []⟩ st0 =
      { st0 with depth := 1, diagnostic := [.loading "/bad", .error "boom"] } :=
  ⟨(failed_branch_diagnostic_only errFS 0 ⟨true, ["nope"]⟩ ⟨false, []⟩ st0 (by decide)).1 rfl,
   (failed_branch_diagnostic_only errFS 0 ⟨true, ["bad"]⟩ ⟨false, []⟩ st0 (by decide)).2
     "boom" rfl⟩

/-- C2 counterexample: in `/a` the key `IncludeFile` occurs one level below
the file's immediate children (under `outer`), naming the existing file `/b`;
yet only `/a` is ever loaded — the nested include is merged verbatim as
ordinary data and its target's content (`y`) never reaches the tree. -/
theorem nested_include_ignored :
    (Load nestedFS ⟨true, []⟩ st0 (parsePath "/a")).diagnostic = [.loading "/a"] ∧
    (Load nestedFS ⟨true, []⟩ st0 (parsePath "/a")).root =
      .node "" [("outer", .node "" [("IncludeFile", leaf "/b")])] ∧
    nestedFS ⟨true, ["b"]⟩ = some (.ok (.node "" [("y", leaf "2")])) :=
  ⟨by decide, rfl, rfl⟩

/-- C2 amended: the reserved key `IncludeFile` is recognized as an include
directive only among each loaded file's immediate top-level children; a key
equal to `IncludeFile` occurring deeper inside a merged subtree is merged as
ordinary data and is not treated as a file path to load.  Formally: when a
file's immediate children carry no `IncludeFile` key, the load merges exactly
those children and loads nothing further, whatever appears at deeper nesting
levels of the subtree. -/
theorem include_recognized_top_level_only (fs : FileSystem) (cwd : FsPath)
    (st : LoaderState) (p : FsPath) (t : Ptree)
    (hfs : fs (resolveEffective (initialParent cwd p) p) = some (.ok t))
    (hnoinc : ∀ kv ∈ t.children, kv.1 ≠ includeKey) :
    Load fs cwd st p =
      ⟨.node st.root.data (st.root.children ++ t.children),
       st.diagnostic ++ [.loading (resolveEffective (initialParent cwd p) p).render],
       1⟩ := by
  unfold Load
  have h0 : (0 : Nat) < depthLimit := by decide
  rw [loadStep_parseOk fs depthLimit p (initialParent cwd p) _ t h0 hfs]
  rw [loadChildren_no_include _ _ t.children _ hnoinc]

/-- C2 amended, witness: the file `/a` of `nestedFS` has no top-level
include key but does contain a nested one; loading it merges exactly its one
child and performs no further load. -/
theorem include_recognized_top_level_only_witness :
    Load nestedFS ⟨true, []⟩ st0 (parsePath "/a") =
      ⟨.node "" [("outer", .node "" [("IncludeFile", leaf "/b")])],
       [.loading "/a"], 1⟩ :=
  include_recognized_top_level_only nestedFS ⟨true, []⟩ st0 (parsePath "/a")
    (.node "" [("outer", .node "" [("IncludeFile", leaf "/b")])]) rfl (by decide)

set_option maxRecDepth 8000 in
/-- C4: the recursive step increments the depth counter first and, beyond the
limit 20, appends the loop-detected line and stops, so `Load` (a total
function of the model) terminates on every input, cyclic include graphs
included.  On the 25-file chain `/c0 → /c1 → ...` the first 20 files are
loaded and merged (each contributing its include entry), then the
loop-detected diagnostic is produced and expansion halts; the one-file cycle
`/s → /s` likewise stops after 20 loads with the loop-detected line. -/
theorem depth_limit_halts_chain :
    (∀ (fs : FileSystem) (cwd : FsPath) (st : LoaderState) (p : FsPath),
      ∃ result, Load fs cwd st p = result) ∧
    (Load (chainFS 25) ⟨true, []⟩ st0 (chainPath 0)).diagnostic =
      (List.range 20).map (fun i => .loading ("/c" ++ Nat.repr i)) ++ [.loopDetected] ∧
    (Load (chainFS 25) ⟨true, []⟩ st0 (chainPath 0)).root =
      .node "" ((List.range 20).map
        (fun i => ("IncludeFile", leaf ("/c" ++ Nat.repr (i + 1))))) ∧
    (Load cycFS ⟨true, []⟩ st0 (parsePath "/s")).diagnostic =
      List.replicate 20 (.loading "/s") ++ [.loopDetected] :=
  ⟨fun fs cwd st p => ⟨Load fs cwd st p, rfl⟩, by decide, rfl, by decide⟩

/-- C5: an absolute requested path is used as-is (only canonicalized); a
relative one is resolved against the parent-path argument and canonicalized,
`.` and `..` segments being folded away; the initial call of a relative root
uses the current working directory as parent path.  The `relFS` scenario
exercises all of it at nesting depths 1 and 2: with current directory `/w`,
the relative root `d/a` loads from `/w/d/a`; its relative include `b2`
resolves against `/w/d` (the including file's directory, not the current
directory); the nested relative include `../up.j` inside `/w/d/b2` climbs to
`/w/up.j`; and the absolute include `/abs/c` is taken as-is. -/
theorem include_path_resolution (q p : FsPath) :
    (p.isAbsolute = true → resolveEffective q p = p.weaklyCanonical) ∧
    (p.isAbsolute = false → resolveEffective q p = (q.concat p).weaklyCanonical) ∧
    (p.isAbsolute = false → ∀ cwd, initialParent cwd p = cwd) ∧
    resolveEffective ⟨true, ["w", "d"]⟩ (parsePath "../b.json") = ⟨true, ["w", "b.json"]⟩ ∧
    resolveEffective ⟨true, ["w", "d"]⟩ (parsePath "./x/../y") = ⟨true, ["w", "d", "y"]⟩ ∧
    (Load relFS ⟨true, ["w"]⟩ st0 (parsePath "d/a")).diagnostic =
      [.loading "/w/d/a", .loading "/w/d/b2", .loading "/w/up.j", .loading "/abs/c"] := by
  refine ⟨fun h => ?_, fun h => ?_, fun h cwd => ?_, by decide, by decide, by decide⟩
  · simp [resolveEffective, h]
  · simp [resolveEffective, h]
  · simp [initialParent, h]

/-- C5 witness: concrete instances of the three conditional parts: the
absolute `/abs/c` is canonicalized as-is, the relative `../b.json` is
resolved against the parent `/w/d`, and a relative root path makes the
initial call use the current working directory `/w`. -/
theorem include_path_resolution_witness :
    resolveEffective ⟨true, ["w", "d"]⟩ (parsePath "/abs/c") = ⟨true, ["abs", "c"]⟩ ∧
    resolveEffective ⟨true, ["w", "d"]⟩ (parsePath "../b.json") = ⟨true, ["w", "b.json"]⟩ ∧
    initialParent ⟨true, ["w"]⟩ (parsePath "d/a") = ⟨true, ["w"]⟩ := by
  refine ⟨?_, ?_, ?_⟩
  · rw [(include_path_resolution ⟨true, ["w", "d"]⟩ (parsePath "/abs/c")).1 (by decide)]
    decide
  · rw [(include_path_resolution ⟨true, ["w", "d"]⟩ (parsePath "../b.json")).2.1 (by decide)]
    decide
  · exact (include_path_resolution ⟨true, ["w", "d"]⟩ (parsePath "d/a")).2.2.1
      (by decide) ⟨true, ["w"]⟩

/-- C8: for every file the parser turns into a tree `t` with no top-level
include key — the external parsers never put data on the root node, so
`t.data = ""` for every valid parsed file — loading it into an initially
empty destination tree yields exactly `t`: same keys, values, order and
duplicates as the parser alone would produce. -/
theorem single_file_matches_parse (fs : FileSystem) (cwd : FsPath) (p : FsPath)
    (t : Ptree) (dl : List DiagLine) (d : Nat)
    (hfs : fs (resolveEffective (initialParent cwd p) p) = some (.ok t))
    (hnoinc : ∀ kv ∈ t.children, kv.1 ≠ includeKey)
    (hdata : t.data = "") :
    (Load fs cwd ⟨.node "" [], dl, d⟩ p).root = t := by
  unfold Load
  have h0 : (0 : Nat) < depthLimit := by decide
  rw [loadStep_parseOk fs depthLimit p (initialParent cwd p) _ t h0 hfs]
  rw [loadChildren_no_include _ _ t.children _ hnoinc]
  cases t with
  | node td tcs => simp_all [Ptree.data, Ptree.children]

/-- C8 witness: loading `/dup` — duplicate keys included — reproduces the
parser's tree exactly. -/
theorem single_file_matches_parse_witness :
    (Load dupFS ⟨true, []⟩ st0 (parsePath "/dup")).root =
      .node "" [("k", leaf "1"), ("k", leaf "2")] :=
  single_file_matches_parse dupFS ⟨true, []⟩ (parsePath "/dup")
    (.node "" [("k", leaf "1"), ("k", leaf "2")]) [] 0 rfl (by decide) rfl

set_option maxRecDepth 8000 in
/-- C10: the depth counter only ever grows (never decremented on return), a
session raises it by at least one per file loaded, and a file is only loaded
while it is at most 20 — so one top-level `Load` session loads at most 20
files in total, across all branches of the include graph, root included.  On
the wide graph `/r` with 25 sibling includes (actual nesting depth only 2),
the root plus the first 19 targets are loaded — 20 files — and every further
include request is answered by a loop-detected diagnostic and abandoned. -/
theorem at_most_twenty_files_loaded (fs : FileSystem) (cwd : FsPath)
    (st : LoaderState) (p : FsPath) :
    (∀ (f : Nat) (a b : FsPath) (s : LoaderState),
      s.depth ≤ (loadStep fs f a b s).depth) ∧
    (∃ dl, (Load fs cwd st p).diagnostic = st.diagnostic ++ dl ∧
      loadingCount dl ≤ depthLimit) ∧
    (Load wideFS ⟨true, []⟩ st0 (parsePath "/r")).diagnostic =
      (.loading "/r") :: (List.range 19).map (fun i => .loading ("/w" ++ Nat.repr i)) ++
        List.replicate 6 .loopDetected := by
  refine ⟨fun f a b s => loadStep_depth_mono fs f a b s, ?_, by decide⟩
  obtain ⟨dl, hdl, _, hcnt⟩ :=
    loadStep_loadBound fs (depthLimit + 1) p (initialParent cwd p) { st with depth := 0 }
  exact ⟨dl, hdl, by simpa using hcnt⟩

end PtreeLoaderModel
